import Mathlib

/-!
Formal model of the VLVT website asset generator
(`src/website/generate_assets.py`).

The script is embedded shallowly:

* Python strings are `List Char`; `str.lstrip('#')` is `List.dropWhile`,
  slicing `s[i:i+2]` is `drop`/`take`.
* Python `int(s, 16)` is modelled on the at-most-two-character slices the
  script ever feeds it: a nonempty all-hex-digit string parses to its value,
  anything else fails.  (CPython additionally accepts surrounding whitespace
  and a sign; no theorem below depends on those forms, and the underscore
  digit-separator forms are impossible in strings of length at most two.)
* Pixel buffers are functions `ℕ → ℕ → value` packaged with their size.
  `Image.paste(im, box, mask)` with a grayscale mask is PIL's fixed-point
  blend from `libImaging/Paste.c`: per channel
  `out = MULDIV255(dst, 255 - m) + MULDIV255(ov, m)` with
  `MULDIV255(a, b) = ((t >> 8) + t) >> 8` for `t = a*b + 128`; a
  size mismatch between the pasted image and the mask raises before any pixel
  is written.
* The vertical gradient's single float step `int(255 * (y / height))` is
  modelled by the exact `⌊255 * y / h⌋`, which coincides with the
  IEEE-double computation on the whole domain of representable image sizes.
  The diagonal gradient's float arithmetic, whose rounding is observable in
  the output, is embedded as explicit correctly rounded binary64 arithmetic
  (`fround` below).
-/

namespace VLVT

/-- Color triples `(r, g, b)` as produced by `hex_to_rgb`. -/
abbrev Color := ℕ × ℕ × ℕ

/-- Numeric value of an ASCII hexadecimal digit (`0-9`, `a-f`, `A-F`),
`none` for any other character. -/
def hexVal (c : Char) : Option ℕ :=
  if 48 ≤ c.toNat ∧ c.toNat ≤ 57 then some (c.toNat - 48)
  else if 97 ≤ c.toNat ∧ c.toNat ≤ 102 then some (c.toNat - 87)
  else if 65 ≤ c.toNat ∧ c.toNat ≤ 70 then some (c.toNat - 55)
  else none

/-- Model of Python `int(s, 16)`: a nonempty string of hex digits parses to
its value, anything else raises `ValueError` (`none`).  The script only
applies this to slices of length at most two. -/
def pyIntHex (s : List Char) : Option ℕ :=
  if s ≠ [] ∧ ∀ c ∈ s, (hexVal c).isSome = true then
    some (s.foldl (fun a c => 16 * a + (hexVal c).getD 0) 0)
  else none

/-- Python slice `s[i:i+2]`. -/
def pySlice (s : List Char) (i : ℕ) : List Char := (s.drop i).take 2

/-- `hex_to_rgb` (generate_assets.py lines 26-28): strip all leading `'#'`
characters, then parse the slices `[0:2]`, `[2:4]`, `[4:6]` as hex. -/
def hex_to_rgb (s : List Char) : Option Color :=
  match pyIntHex (pySlice (s.dropWhile (fun c => c == '#')) 0),
      pyIntHex (pySlice (s.dropWhile (fun c => c == '#')) 2),
      pyIntHex (pySlice (s.dropWhile (fun c => c == '#')) 4) with
  | some r, some g, some b => some (r, g, b)
  | _, _, _ => none

/-- Lower-case hex digit character for a value `v < 16`, as produced by
Python's `"%02x"`-style re-encoding. -/
def hexCharLower (v : ℕ) : Char :=
  if v < 10 then Char.ofNat (48 + v) else Char.ofNat (87 + v)

/-- Zero-padded two-digit lower-case hex encoding of a byte. -/
def toHex2 (n : ℕ) : List Char := [hexCharLower (n / 16), hexCharLower (n % 16)]

/-- ASCII lower-casing, used to state case-insensitive comparison of tokens. -/
def lowerAscii (c : Char) : Char :=
  if 65 ≤ c.toNat ∧ c.toNat ≤ 90 then Char.ofNat (c.toNat + 32) else c

/-- Value of a two-hex-digit pair. -/
def hexPair (c1 c2 : Char) : ℕ := 16 * (hexVal c1).getD 0 + (hexVal c2).getD 0

/-- PIL's `MULDIV255(a, b, tmp)` macro from `libImaging/Paste.c`:
`tmp = a*b + 128; result = ((tmp >> 8) + tmp) >> 8` — a rounded
fixed-point division of `a*b` by 255. -/
def muldiv255 (a b : ℕ) : ℕ := ((a * b + 128) / 256 + (a * b + 128)) / 256

/-- PIL's per-channel `BLEND(mask, in1, in2)`:
`MULDIV255(in1, 255 - mask) + MULDIV255(in2, mask)`. -/
def blendChan (m a b : ℕ) : ℕ := muldiv255 a (255 - m) + muldiv255 b m

/-- `BLEND` applied componentwise to color triples. -/
def blendPx (m : ℕ) (p q : Color) : Color :=
  (blendChan m p.1 q.1, blendChan m p.2.1 q.2.1, blendChan m p.2.2 q.2.2)

/-- An RGB pixel buffer: a size plus a pixel function. -/
structure Img where
  width : ℕ
  height : ℕ
  px : ℕ → ℕ → Color

/-- A grayscale (mode `'L'`) pixel buffer, used as a paste mask. -/
structure GrayImg where
  width : ℕ
  height : ℕ
  px : ℕ → ℕ → ℕ

/-- `Image.new(mode, (w, h), color)`: a constant buffer. -/
def Img.new (w h : ℕ) (c : Color) : Img := ⟨w, h, fun _ _ => c⟩

/-- Failure of the masked-paste compositor (PIL raises `ValueError` when the
pasted image and the mask differ in size; the spec names this
`DimensionMismatch`). -/
inductive PasteError
  | dimensionMismatch

/-- `dst.paste(ov, (ox, oy), mask)` with a grayscale mask: PIL first checks
that the overlay and the mask have the same size (raising before touching any
pixel), then blends every overlay pixel that lands inside the destination
into the destination with `BLEND`. -/
def pastePx (dst ov : Img) (m : GrayImg) (ox oy : ℕ) : ℕ → ℕ → Color :=
  fun x y =>
    if ox ≤ x ∧ x < ox + ov.width ∧ oy ≤ y ∧ y < oy + ov.height ∧
        x < dst.width ∧ y < dst.height then
      blendPx (m.px (x - ox) (y - oy)) (dst.px x y) (ov.px (x - ox) (y - oy))
    else dst.px x y

/-- The size check and the resulting composite of a masked paste. -/
def pasteMask (dst ov : Img) (m : GrayImg) (ox oy : ℕ) : Except PasteError Img :=
  if ov.width = m.width ∧ ov.height = m.height then
    .ok ⟨dst.width, dst.height, pastePx dst ov m ox oy⟩
  else .error .dimensionMismatch

/-- Run a paste as the script does: on success the destination now holds the
composite, on failure the exception propagates and the destination is left
exactly as it was. -/
def pasteRun (dst ov : Img) (m : GrayImg) (ox oy : ℕ) : Img :=
  match pasteMask dst ov m ox oy with
  | .ok i => i
  | .error _ => dst

/-- The `mask_data` accumulation loop of `create_gradient_vertical`
(lines 39-41): starting from an empty list, each row `y` appends `w` copies
of the row's mask value `g y`. -/
def maskRows (g : ℕ → ℕ) (w h : ℕ) : List ℕ :=
  (List.range h).foldl (fun l y => l ++ List.replicate w (g y)) []

/-- Row mask values of the vertical gradient: `int(255 * (y / height))`,
modelled exactly as `⌊255 * y / h⌋`. -/
def vmaskData (w h : ℕ) : List ℕ := maskRows (fun y => 255 * y / h) w h

/-- `Image.putdata`: fill a buffer row-major from a flat list. -/
def putdataGray (w h : ℕ) (l : List ℕ) : GrayImg :=
  ⟨w, h, fun x y => l.getD (y * w + x) 0⟩

/-- `create_gradient_vertical` (lines 34-44): a solid `color1` base, a solid
`color2` top, a row-ramp mask built by `putdata`, composited by
`base.paste(top, (0, 0), mask)`. -/
def create_gradient_vertical (w h : ℕ) (c1 c2 : Color) : Img :=
  pasteRun (Img.new w h c1) (Img.new w h c2) (putdataGray w h (vmaskData w h)) 0 0

/-- Python `int()` truncation toward zero on a rational. -/
def pyTrunc (q : ℚ) : ℤ := q.num.tdiv q.den

/-! ### IEEE-754 binary64 arithmetic

The diagonal gradient (lines 53-60) computes `blend` and the channel values
in CPython doubles, and the rounding of each float operation is observable in
the output (it can move `int()` across an integer boundary), so those
operations are embedded as correctly rounded binary64 arithmetic, implemented
over `ℕ`.  A nonnegative double is represented as a pair `(n, k)` of value
`n / 2^k`.  Rounding is round-to-nearest, ties-to-even, at 53 significant
bits, with an unbounded exponent: on this script's domain (quotients of
pixel coordinates by image dimensions, and products with byte-sized channel
differences) every value is far inside the binary64 normal range, so
overflow and gradual underflow never arise and this matches binary64
exactly.  CPython's `int / int` is correctly rounded at every magnitude, and
the `int` operands of `*` and `+` (channel values and their differences,
bounded by 255) convert to double exactly. -/

/-- Fuel-bounded base-2 logarithm: `log2Aux fuel n = ⌊log2 n⌋` whenever
`0 < n < 2 ^ fuel`. -/
def log2Aux : ℕ → ℕ → ℕ
  | 0, _ => 0
  | fuel + 1, n => if n < 2 then 0 else log2Aux fuel (n / 2) + 1

/-- `⌊log2 n⌋` for `0 < n < 2 ^ 128` — far beyond any quantity the script's
double arithmetic can meet inside the binary64 normal range. -/
def nlog2 (n : ℕ) : ℕ := log2Aux 128 n

/-- `⌊log2 (a / b)⌋` for positive `a` and `b`: scale the fraction up by a
power of two so that it reaches at least 1, then take the integer log of its
floor. -/
def ratLog2 (a b : ℕ) : ℤ :=
  (nlog2 (a * 2 ^ (nlog2 b + 1) / b) : ℤ) - (nlog2 b + 1)

/-- The IEEE-754 binary64 value nearest to `a / b` (round-to-nearest,
ties-to-even, 53-bit significand), as a dyadic pair `(n, k)` of value
`n / 2^k`.  This is the result of CPython's correctly rounded `int / int`
true division, and of rounding any exact nonnegative rational result of a
float operation. -/
def fround (a b : ℕ) : ℕ × ℕ :=
  if a = 0 then (0, 0)
  else
    let e : ℤ := ratLog2 a b
    let num2 : ℕ := if 0 ≤ 52 - e then a * 2 ^ (52 - e).toNat else a
    let den2 : ℕ := if 0 ≤ 52 - e then b else b * 2 ^ (e - 52).toNat
    let q := num2 / den2
    let r := num2 % den2
    let n : ℕ :=
      if 2 * r < den2 then q
      else if den2 < 2 * r then q + 1
      else if q % 2 = 0 then q else q + 1
    if 0 ≤ e - 52 then (n * 2 ^ (e - 52).toNat, 0) else (n, (52 - e).toNat)

/-- Float addition: the exact dyadic sum, rounded once. -/
def dyAdd (u v : ℕ × ℕ) : ℕ × ℕ :=
  fround (u.1 * 2 ^ (max u.2 v.2 - u.2) + v.1 * 2 ^ (max u.2 v.2 - v.2))
    (2 ^ max u.2 v.2)

/-- Float halving, exact in the binary64 normal range. -/
def dyHalf (u : ℕ × ℕ) : ℕ × ℕ := (u.1, u.2 + 1)

/-- Float subtraction `a - p` of a dyadic from an exactly representable
natural, rounded once (used with `p ≤ a`, where the result is
nonnegative). -/
def dySubInt (a : ℕ) (p : ℕ × ℕ) : ℕ × ℕ :=
  fround (a * 2 ^ p.2 - p.1) (2 ^ p.2)

/-- Python `int()` on a nonnegative double: truncation is floor. -/
def dyTrunc (u : ℕ × ℕ) : ℕ := u.1 / 2 ^ u.2

/-- The binary64 evaluation of `blend = ((x / width) + (y / height)) / 2`
(line 56): two correctly rounded divisions, one rounded addition, one exact
halving. -/
def floatBlend (w h x y : ℕ) : ℕ × ℕ :=
  dyHalf (dyAdd (fround x w) (fround y h))

/-- The binary64 evaluation of one channel `int(c1 + (c2 - c1) * blend)`
(lines 57-59): the integer difference `c2 - c1` is exact (bytes convert to
double exactly), its product with `blend` rounds once, the addition to `c1`
rounds once, and `int()` truncates.  A negative difference is handled by the
sign-symmetric rounding of binary64. -/
def floatChan (a b : ℕ) (t : ℕ × ℕ) : ℕ :=
  if a ≤ b then dyTrunc (dyAdd (a, 0) (fround ((b - a) * t.1) (2 ^ t.2)))
  else dyTrunc (dySubInt a (fround ((a - b) * t.1) (2 ^ t.2)))

/-- The full pixel written by the diagonal gradient's inner loop body, in
binary64 arithmetic. -/
def floatDiagPixel (c1 c2 : Color) (w h x y : ℕ) : Color :=
  (floatChan c1.1 c2.1 (floatBlend w h x y),
   floatChan c1.2.1 c2.2.1 (floatBlend w h x y),
   floatChan c1.2.2 c2.2.2 (floatBlend w h x y))

/-- The blend factor `((x / width) + (y / height)) / 2` read as exact
arithmetic.  This follows the claim's words and is compared against the
implementation's binary64 evaluation. -/
def specDiagBlendFactor (w h x y : ℕ) : ℚ :=
  (((x : ℚ) / (w : ℚ)) + ((y : ℚ) / (h : ℚ))) / 2

/-- The per-channel value the claim ascribes to the diagonal gradient: the
truncation of `c1 + (c2 - c1) * t` in exact arithmetic.  This follows the
claim's words and is compared against the implementation. -/
def specDiagChan (a b : ℕ) (t : ℚ) : ℤ := pyTrunc ((a : ℚ) + ((b : ℚ) - (a : ℚ)) * t)

/-- `pixels[x, y] = v`: pointwise update of a pixel function. -/
def writePx (p : ℕ → ℕ → Color) (x y : ℕ) (v : Color) : ℕ → ℕ → Color :=
  fun a b => if a = x ∧ b = y then v else p a b

/-- The inner `for x in range(width)` loop of `create_diagonal_gradient`,
writing row `y`. -/
def rowLoop (w y : ℕ) (f : ℕ → ℕ → Color) (p : ℕ → ℕ → Color) : ℕ → ℕ → Color :=
  (List.range w).foldl (fun q x => writePx q x y (f x y)) p

/-- The outer `for y in range(height)` loop of `create_diagonal_gradient`. -/
def gridLoop (w h : ℕ) (f : ℕ → ℕ → Color) (p : ℕ → ℕ → Color) : ℕ → ℕ → Color :=
  (List.range h).foldl (fun p y => rowLoop w y f p) p

/-- `create_diagonal_gradient` (lines 46-62): start from a solid `color1`
image and overwrite every in-range pixel with the binary64-interpolated
value. -/
def create_diagonal_gradient (w h : ℕ) (c1 c2 : Color) : Img :=
  ⟨w, h, gridLoop w h (floatDiagPixel c1 c2 w h) (fun _ _ => c1)⟩

/-- Channel values of a color are bytes. -/
def chanLe255 (p : Color) : Prop := p.1 ≤ 255 ∧ p.2.1 ≤ 255 ∧ p.2.2 ≤ 255

/-- Every channel of `p` lies in the closed interval spanned by the
corresponding channels of `a` and `b`. -/
def pxBetween (p a b : Color) : Prop :=
  (min a.1 b.1 ≤ p.1 ∧ p.1 ≤ max a.1 b.1) ∧
  (min a.2.1 b.2.1 ≤ p.2.1 ∧ p.2.1 ≤ max a.2.1 b.2.1) ∧
  (min a.2.2 b.2.2 ≤ p.2.2 ∧ p.2.2 ≤ max a.2.2 b.2.2)

/-- `p` is, channel by channel, at least as close to `b` as `a` is. -/
def pxCloser (p a b : Color) : Prop :=
  Nat.dist p.1 b.1 ≤ Nat.dist a.1 b.1 ∧
  Nat.dist p.2.1 b.2.1 ≤ Nat.dist a.2.1 b.2.1 ∧
  Nat.dist p.2.2 b.2.2 ≤ Nat.dist a.2.2 b.2.2

/-- The per-channel value the specification ascribes to the vertical
gradient: `int(color1.channel + (color2.channel - color1.channel) * (y / height))`
with the fractional part discarded.  This follows the spec's words and is
compared against the implementation. -/
def specVertChan (a b : ℕ) (y h : ℕ) : ℤ :=
  pyTrunc ((a : ℚ) + ((b : ℚ) - (a : ℚ)) * ((y : ℚ) / (h : ℚ)))

/-! ## The hero mockup (`generate_app_mockup`, lines 65-349)

The mockup is a 440x840 RGBA canvas.  For the end-to-end claim only the
canvas sizes and the alpha channel matter, so the drawing sequence is
embedded as its effect on the alpha channel: every `ImageDraw` primitive
writes its ink's alpha on the pixels it covers, and every masked paste blends
alpha with `BLEND`.  Shape coverage is modelled with integer arithmetic:
`rounded_rectangle` is two rectangles plus four corner disks (how PIL draws
it), circles are integer disks, an `outline` stroke is the shape minus the
shape shrunk by the stroke width, and a text call or a thick line/arc/polygon
is covered by its bounding box (the default PIL bitmap font renders 6x11
glyph cells down-right of the anchor).  The pixels the theorems below examine
lie strictly inside or strictly outside every one of these regions, where
the model and PIL's rasterizer agree. -/

/-- Membership in the filled rectangle `[(x0, y0), (x1, y1)]` (PIL includes
both corners). -/
def inRectB (x0 y0 x1 y1 px py : ℕ) : Bool :=
  decide (x0 ≤ px) && decide (px ≤ x1) && decide (y0 ≤ py) && decide (py ≤ y1)

/-- Membership in the disk of radius `r` centered at `(cx, cy)`. -/
def inDiskB (cx cy r px py : ℕ) : Bool :=
  decide (((px : ℤ) - (cx : ℤ)) ^ 2 + ((py : ℤ) - (cy : ℤ)) ^ 2 ≤ (r : ℤ) ^ 2)

/-- Membership in a rounded rectangle: the union of the two inset rectangles
and the four corner disks. -/
def inRRectB (x0 y0 x1 y1 r px py : ℕ) : Bool :=
  inRectB (x0 + r) y0 (x1 - r) y1 px py || inRectB x0 (y0 + r) x1 (y1 - r) px py ||
  inDiskB (x0 + r) (y0 + r) r px py || inDiskB (x1 - r) (y0 + r) r px py ||
  inDiskB (x0 + r) (y1 - r) r px py || inDiskB (x1 - r) (y1 - r) r px py

/-- The outline band of a rounded rectangle of stroke width `wd`: the shape
minus the shape shrunk by `wd`. -/
def rrectRingB (x0 y0 x1 y1 r wd px py : ℕ) : Bool :=
  inRRectB x0 y0 x1 y1 r px py && !inRRectB (x0 + wd) (y0 + wd) (x1 - wd) (y1 - wd) (r - wd) px py

/-- Bounding box of a text call at `(x0, y0)` with `len` characters of the
default 6x11 bitmap font. -/
def textBoxB (x0 y0 len px py : ℕ) : Bool :=
  inRectB x0 y0 (x0 + 6 * len - 1) (y0 + 10) px py

/-- A single-channel (alpha) buffer. -/
abbrev AlphaBuf := ℕ → ℕ → ℕ

/-- An `ImageDraw` primitive: write alpha `a` on every covered pixel. -/
def drawA (cover : ℕ → ℕ → Bool) (a : ℕ) (f : AlphaBuf) : AlphaBuf :=
  fun x y => if cover x y then a else f x y

/-- Alpha-channel effect of `dst.paste(ov, (ox, oy), mask)` on a `dw x dh`
destination, `ov` and `mask` being `w x h` buffers. -/
def pasteA (dw dh ox oy w h : ℕ) (ovA maskA : AlphaBuf) (f : AlphaBuf) : AlphaBuf :=
  fun x y =>
    if ox ≤ x ∧ x < ox + w ∧ oy ≤ y ∧ y < oy + h ∧ x < dw ∧ y < dh then
      blendChan (maskA (x - ox) (y - oy)) (f x y) (ovA (x - ox) (y - oy))
    else f x y

/-- Phone body width (line 69). -/
def phone_w : ℕ := 380

/-- Phone body height (line 69). -/
def phone_h : ℕ := 780

/-- Glow margin left on each side of the phone (`ox, oy = 30, 30`, line 78;
the canvas is `(phone_w + 60, phone_h + 60)`, line 74). -/
def mockup_margin : ℕ := 30

/-- Width of the mockup canvas (line 74). -/
def mockupImgWidth : ℕ := phone_w + 60

/-- Height of the mockup canvas (line 74). -/
def mockupImgHeight : ℕ := phone_h + 60

/-- Alpha of the screen background after `screen_bg.putalpha(mask)`
(lines 102-107): the rounded-rectangle mask on the 356x756 screen. -/
def screenMaskA : AlphaBuf := fun x y => if inRRectB 0 0 355 755 28 x y then 255 else 0

/-- Alpha of the card background after `card_bg.putalpha(card_mask)`
(lines 172-175): the rounded-rectangle mask on the 324x561 card. -/
def cardMaskA : AlphaBuf := fun x y => if inRRectB 0 0 323 560 16 x y then 255 else 0

/-- Alpha of the photo placeholder after `photo_bg.putalpha(photo_mask)`
(lines 202-205): the rounded-rectangle mask on the 284x260 photo. -/
def photoMaskA : AlphaBuf := fun x y => if inRRectB 0 0 283 259 12 x y then 255 else 0

/-- Alpha channel of the working mockup canvas `img` after the whole drawing
sequence of `generate_app_mockup`, one step per source statement, with all
coordinates evaluated from the source's layout arithmetic. -/
def mockupAlpha : AlphaBuf :=
  -- Image.new('RGBA', (440, 840), (0, 0, 0, 0)), line 74
  let a : AlphaBuf := fun _ _ => 0
  -- phone frame rounded_rectangle, fill + outline, lines 81-87
  let a := drawA (inRRectB 30 30 410 810 40) 255 a
  -- img.paste(screen_bg, (42, 42), screen_bg), line 108
  let a := pasteA 440 840 42 42 356 756 screenMaskA screenMaskA a
  -- status bar text "9:41" at (205, 57), line 115
  let a := drawA (textBoxB 205 57 4) 255 a
  -- notch rounded_rectangle (175, 50)-(265, 78) r 14, lines 121-125
  let a := drawA (inRRectB 175 50 265 78 14) 255 a
  -- header text "Discovery" at (62, 97), line 129
  let a := drawA (textBoxB 62 97 9) 255 a
  -- likes badge rounded_rectangle (338, 95)-(383, 119) r 12,
  -- fill alpha 50, outline alpha 255, lines 134-140
  let a := drawA (inRRectB 338 95 383 119 12) 50 a
  let a := drawA (rrectRingB 338 95 383 119 12 1) 255 a
  -- heart ellipse (344, 101)-(356, 113), line 142
  let a := drawA (inDiskB 350 107 6) 255 a
  -- text "5" at (362, 99), line 143
  let a := drawA (textBoxB 362 99 1) 255 a
  -- img.paste(card_bg, (58, 137), card_bg), line 177
  let a := pasteA 440 840 58 137 324 561 cardMaskA cardMaskA a
  -- card gold border, outline alpha 77 width 1, lines 181-186
  let a := drawA (rrectRingB 58 137 382 698 16 1) 77 a
  -- img.paste(photo_bg, (78, 157), photo_bg), line 207
  let a := pasteA 440 840 78 157 284 260 photoMaskA photoMaskA a
  -- head ellipse (185, 192)-(255, 262), alpha 200, lines 216-219
  let a := drawA (inDiskB 220 227 35) 200 a
  -- shoulders arc, stroke width 40 around (160, 257)-(280, 337),
  -- alpha 200, lines 221-226 (bounding box)
  let a := drawA (inRectB 140 237 300 357) 200 a
  -- photo dots, ellipses radius 4 at y 402, lines 229-233
  let a := drawA (inDiskB 200 402 4) 255 a
  let a := drawA (inDiskB 220 402 4) 255 a
  let a := drawA (inDiskB 240 402 4) 255 a
  -- name text "Sophia, 26" at (82, 437), line 237
  let a := drawA (textBoxB 82 437 10) 255 a
  -- bio texts at (82, 472) and (82, 494), lines 241-242
  let a := drawA (textBoxB 82 472 21) 255 a
  let a := drawA (textBoxB 82 494 19) 255 a
  -- gold divider line (82, 532)-(358, 532), alpha 77, lines 246-250
  let a := drawA (inRectB 82 532 358 532) 77 a
  -- "Interests" text at (82, 547), line 254
  let a := drawA (textBoxB 82 547 9) 255 a
  -- chip "Travel": rrect (82, 575)-(156, 603) r 14, fill alpha 38,
  -- outline alpha 77, text at (92, 580), lines 261-272
  let a := drawA (inRRectB 82 575 156 603 14) 38 a
  let a := drawA (rrectRingB 82 575 156 603 14 1) 77 a
  let a := drawA (textBoxB 92 580 6) 255 a
  -- chip "Photography": rrect (166, 575)-(285, 603) r 14, text at (176, 580)
  let a := drawA (inRRectB 166 575 285 603 14) 38 a
  let a := drawA (rrectRingB 166 575 285 603 14 1) 77 a
  let a := drawA (textBoxB 176 580 11) 255 a
  -- chip "Art": rrect (295, 575)-(342, 603) r 14, text at (305, 580)
  let a := drawA (inRRectB 295 575 342 603 14) 38 a
  let a := drawA (rrectRingB 295 575 342 603 14 1) 77 a
  let a := drawA (textBoxB 305 580 3) 255 a
  -- pass button ellipse center (131, 753) r 25, lines 280-283
  let a := drawA (inDiskB 131 753 25) 255 a
  -- X mark, two width-3 lines inside (117, 739)-(145, 767), lines 286-295
  let a := drawA (inRectB 117 739 145 767) 255 a
  -- like button ellipse center (309, 753) r 25, lines 299-302
  let a := drawA (inDiskB 309 753 25) 255 a
  -- heart polygon inside (294, 741)-(324, 768), lines 306-313
  let a := drawA (inRectB 294 741 324 768) 255 a
  -- hint text at (165, 793), alpha 150, line 319
  let a := drawA (textBoxB 165 793 17) 150 a
  -- nav dots, ellipses radius 6 at y 781, lines 329-331
  let a := drawA (inDiskB 77 781 6) 255 a
  let a := drawA (inDiskB 148 781 6) 255 a
  let a := drawA (inDiskB 219 781 6) 255 a
  let a := drawA (inDiskB 290 781 6) 255 a
  a

/-- Alpha channel of `final_img` (lines 344-346): a fresh transparent canvas,
paste the blurred glow with itself as mask, then paste `img` with itself as
mask.  The glow's alpha (a Gaussian-blurred buffer, float convolution) is
left as a parameter: the theorems hold for every glow buffer. -/
def mockupFinalAlpha (glowA : AlphaBuf) : AlphaBuf :=
  pasteA 440 840 0 0 440 840 mockupAlpha mockupAlpha
    (pasteA 440 840 0 0 440 840 glowA glowA (fun _ _ => 0))

/-! ## Icon generation (`generate_icon`, lines 354-360) -/

/-- An RGBA pixel. -/
abbrev RGBA := ℕ × ℕ × ℕ × ℕ

/-- An RGBA pixel buffer. -/
structure RGBAImg where
  width : ℕ
  height : ℕ
  px : ℕ → ℕ → RGBA

/-- `Image.new('RGBA', (w, h), c)`. -/
def newRGBA (w h : ℕ) (c : RGBA) : RGBAImg := ⟨w, h, fun _ _ => c⟩

/-- Alpha component of an RGBA pixel. -/
def alphaOf (c : RGBA) : ℕ := c.2.2.2

/-- The fixed part of an icon's output path before the icon name
(`f"assets/generated/icon_{name}.png"`, line 359). -/
def iconPathHead : List Char := "assets/generated/icon_".toList

/-- The fixed part of an icon's output path after the icon name. -/
def iconPathTail : List Char := ".png".toList

/-- `generate_icon` (lines 354-360): a fresh fully transparent 128x128 RGBA
canvas is handed to the drawing callback together with the size 128, and the
result is written to `assets/generated/icon_{name}.png`.  The model returns
the written path and the image handed to `save`. -/
def generate_icon (name : List Char) (draw_func : RGBAImg → ℕ → RGBAImg) :
    List Char × RGBAImg :=
  let size := 128
  let img := newRGBA size size (0, 0, 0, 0)
  let img2 := draw_func img size
  (iconPathHead ++ name ++ iconPathTail, img2)

/-! ## Facts about the color resolver -/

theorem hexVal_ne_hash {c : Char} (h : (hexVal c).isSome = true) :
    (c == '#') = false := by
  by_contra hne
  have hc : c = '#' := by
    cases hb : (c == '#') with
    | false => exact absurd hb hne
    | true => exact beq_iff_eq.mp hb
  subst hc
  exact absurd h (by decide)

theorem dropWhile_hash (k : ℕ) (l : List Char) :
    (List.replicate k '#' ++ l).dropWhile (fun c => c == '#') =
      l.dropWhile (fun c => c == '#') := by
  induction k with
  | zero => rfl
  | succ k ih =>
      simp [List.replicate_succ, List.dropWhile]

theorem dropWhile_cons_hex {c : Char} (l : List Char)
    (h : (hexVal c).isSome = true) :
    (c :: l).dropWhile (fun c => c == '#') = c :: l := by
  simp [List.dropWhile, hexVal_ne_hash h]

theorem hexVal_lt_16 {c : Char} {v : ℕ} (h : hexVal c = some v) : v < 16 := by
  unfold hexVal at h
  split_ifs at h with h1 h2 h3 <;>
    simp only [Option.some.injEq] at h <;> omega

theorem pyIntHex_pair (c1 c2 : Char) (h1 : (hexVal c1).isSome = true)
    (h2 : (hexVal c2).isSome = true) :
    pyIntHex [c1, c2] = some (hexPair c1 c2) := by
  unfold pyIntHex
  rw [if_pos]
  · simp [hexPair, List.foldl]
  · refine ⟨by simp, ?_⟩
    intro c hc
    simp only [List.mem_cons, List.not_mem_nil, or_false] at hc
    rcases hc with rfl | rfl
    · exact h1
    · exact h2

theorem pyIntHex_single (c : Char) (h : (hexVal c).isSome = true) :
    pyIntHex [c] = some ((hexVal c).getD 0) := by
  unfold pyIntHex
  rw [if_pos]
  · simp [List.foldl]
  · exact ⟨by simp, by simpa using h⟩

theorem hex_to_rgb_cons6 (a b c d e f : Char) (rest : List Char)
    (ha : (hexVal a).isSome = true) (hb : (hexVal b).isSome = true)
    (hc : (hexVal c).isSome = true) (hd : (hexVal d).isSome = true)
    (he : (hexVal e).isSome = true) (hf : (hexVal f).isSome = true) :
    hex_to_rgb (a :: b :: c :: d :: e :: f :: rest) =
      some (hexPair a b, hexPair c d, hexPair e f) := by
  unfold hex_to_rgb
  rw [dropWhile_cons_hex _ ha]
  have s0 : pySlice (a :: b :: c :: d :: e :: f :: rest) 0 = [a, b] := rfl
  have s2 : pySlice (a :: b :: c :: d :: e :: f :: rest) 2 = [c, d] := rfl
  have s4 : pySlice (a :: b :: c :: d :: e :: f :: rest) 4 = [e, f] := rfl
  rw [s0, s2, s4, pyIntHex_pair a b ha hb, pyIntHex_pair c d hc hd,
    pyIntHex_pair e f he hf]

theorem hexCharLower_eq {c : Char} {v : ℕ} (h : hexVal c = some v) :
    hexCharLower v = lowerAscii c := by
  unfold hexVal at h
  unfold hexCharLower lowerAscii
  split_ifs at h with h1 h2 h3 <;> simp only [Option.some.injEq] at h <;> subst h
  · rw [if_pos (by omega), if_neg (by omega)]
    have : 48 + (c.toNat - 48) = c.toNat := by omega
    rw [this, Char.ofNat_toNat]
  · rw [if_neg (by omega), if_neg (by omega)]
    have : 87 + (c.toNat - 87) = c.toNat := by omega
    rw [this, Char.ofNat_toNat]
  · rw [if_neg (by omega), if_pos (by omega)]
    have : 87 + (c.toNat - 55) = c.toNat + 32 := by omega
    rw [this]

theorem toHex2_hexPair (c1 c2 : Char) (h1 : (hexVal c1).isSome = true)
    (h2 : (hexVal c2).isSome = true) :
    toHex2 (hexPair c1 c2) = [lowerAscii c1, lowerAscii c2] := by
  rcases Option.isSome_iff_exists.mp h1 with ⟨v1, hv1⟩
  rcases Option.isSome_iff_exists.mp h2 with ⟨v2, hv2⟩
  have b1 := hexVal_lt_16 hv1
  have b2 := hexVal_lt_16 hv2
  unfold toHex2 hexPair
  rw [hv1, hv2]
  simp only [Option.getD_some]
  have hq : (16 * v1 + v2) / 16 = v1 := by omega
  have hr : (16 * v1 + v2) % 16 = v2 := by omega
  rw [hq, hr, hexCharLower_eq hv1, hexCharLower_eq hv2]

/-! ## Claim theorems: the color resolver (C1, C4, C9) -/

/-- C1 (counterexample): the token `"abcde"` is not six hexadecimal digits
after stripping (its stripped length is 5), yet `hex_to_rgb` does not fail:
it returns the triple `(171, 205, 14)` (Python parses the third slice
`"e"` as a one-digit hex numeral).  This refutes the claim that every token
that is not exactly six hex digits fails. -/
theorem c1_counterexample :
    ((['a', 'b', 'c', 'd', 'e'] : List Char).dropWhile (fun c => c == '#')).length = 5 ∧
    hex_to_rgb ['a', 'b', 'c', 'd', 'e'] = some (171, 205, 14) := by
  constructor
  · rfl
  · decide

/-- C1 (amended): `hex_to_rgb` does fail whenever the stripped token is
shorter than five characters, and a stripped token whose first
`min(length, 6)` characters are hex digits succeeds whenever it has at least
five characters — so wrong length alone only causes failure below length
five, and characters beyond the sixth are never examined. -/
theorem c1_hex_to_rgb_failure (s : List Char) :
    ((s.dropWhile (fun c => c == '#')).length ≤ 4 → hex_to_rgb s = none) ∧
    (5 ≤ (s.dropWhile (fun c => c == '#')).length →
      (∀ c ∈ (s.dropWhile (fun c => c == '#')).take 6, (hexVal c).isSome = true) →
      (hex_to_rgb s).isSome = true) := by
  constructor
  · intro hlen
    have h4 : pySlice (s.dropWhile (fun c => c == '#')) 4 = [] := by
      unfold pySlice
      rw [List.drop_eq_nil_of_le hlen]
      rfl
    have hnone : pyIntHex (pySlice (s.dropWhile (fun c => c == '#')) 4) = none := by
      rw [h4]
      rfl
    unfold hex_to_rgb
    rw [hnone]
    rcases pyIntHex (pySlice (s.dropWhile (fun c => c == '#')) 0) with _ | r <;>
      rcases pyIntHex (pySlice (s.dropWhile (fun c => c == '#')) 2) with _ | g <;> rfl
  · intro hlen hhex
    rcases ht : s.dropWhile (fun c => c == '#') with _ | ⟨a, t1⟩
    · rw [ht] at hlen
      simp only [List.length_nil, List.length_cons] at hlen; omega
    rcases t1 with _ | ⟨b, t2⟩
    · rw [ht] at hlen
      simp only [List.length_nil, List.length_cons] at hlen; omega
    rcases t2 with _ | ⟨c, t3⟩
    · rw [ht] at hlen
      simp only [List.length_nil, List.length_cons] at hlen; omega
    rcases t3 with _ | ⟨d, t4⟩
    · rw [ht] at hlen
      simp only [List.length_nil, List.length_cons] at hlen; omega
    rcases t4 with _ | ⟨e, t5⟩
    · rw [ht] at hlen
      simp only [List.length_nil, List.length_cons] at hlen; omega
    rw [ht] at hhex
    have ha : (hexVal a).isSome = true := hhex a (by simp)
    have hb : (hexVal b).isSome = true := hhex b (by simp)
    have hc : (hexVal c).isSome = true := hhex c (by simp)
    have hd : (hexVal d).isSome = true := hhex d (by simp)
    have he : (hexVal e).isSome = true := hhex e (by simp)
    unfold hex_to_rgb
    rw [ht]
    have s0 : pySlice (a :: b :: c :: d :: e :: t5) 0 = [a, b] := rfl
    have s2 : pySlice (a :: b :: c :: d :: e :: t5) 2 = [c, d] := rfl
    rw [s0, s2, pyIntHex_pair a b ha hb, pyIntHex_pair c d hc hd]
    rcases t5 with _ | ⟨f, t6⟩
    · have s4 : pySlice [a, b, c, d, e] 4 = [e] := rfl
      rw [s4, pyIntHex_single e he]
      rfl
    · have hf : (hexVal f).isSome = true := hhex f (by simp)
      have s4 : pySlice (a :: b :: c :: d :: e :: f :: t6) 4 = [e, f] := rfl
      rw [s4, pyIntHex_pair e f he hf]
      rfl

/-- C1 (witness): both amended directions at concrete tokens: `"abcd"`
(stripped length 4) fails, `"abcde"` (stripped length 5, all hex)
succeeds. -/
theorem c1_hex_to_rgb_failure_witness :
    hex_to_rgb ['a', 'b', 'c', 'd'] = none ∧
    (hex_to_rgb ['a', 'b', 'c', 'd', 'e']).isSome = true :=
  ⟨(c1_hex_to_rgb_failure ['a', 'b', 'c', 'd']).1 (by decide),
   (c1_hex_to_rgb_failure ['a', 'b', 'c', 'd', 'e']).2 (by decide) (by decide)⟩

/-- C4: every valid six-hex-digit token, with any number of leading `'#'`
markers and any letter case, resolves to a triple, and re-encoding the three
channels as zero-padded two-digit lower-case hex reproduces the six original
digits up to letter case. -/
theorem c4_hex_roundtrip (k : ℕ) (d : List Char) (hlen : d.length = 6)
    (hhex : ∀ c ∈ d, (hexVal c).isSome = true) :
    ∃ r g b, hex_to_rgb (List.replicate k '#' ++ d) = some (r, g, b) ∧
      toHex2 r ++ toHex2 g ++ toHex2 b = d.map lowerAscii := by
  rcases d with _ | ⟨a, d⟩
  · simp only [List.length_nil, List.length_cons] at hlen; omega
  rcases d with _ | ⟨b, d⟩
  · simp only [List.length_nil, List.length_cons] at hlen; omega
  rcases d with _ | ⟨c, d⟩
  · simp only [List.length_nil, List.length_cons] at hlen; omega
  rcases d with _ | ⟨e, d⟩
  · simp only [List.length_nil, List.length_cons] at hlen; omega
  rcases d with _ | ⟨f, d⟩
  · simp only [List.length_nil, List.length_cons] at hlen; omega
  rcases d with _ | ⟨g, d⟩
  · simp only [List.length_nil, List.length_cons] at hlen; omega
  rcases d with _ | ⟨x, d⟩
  swap
  · simp only [List.length_nil, List.length_cons] at hlen; omega
  have ha : (hexVal a).isSome = true := hhex a (by simp)
  have hb : (hexVal b).isSome = true := hhex b (by simp)
  have hc : (hexVal c).isSome = true := hhex c (by simp)
  have he : (hexVal e).isSome = true := hhex e (by simp)
  have hf : (hexVal f).isSome = true := hhex f (by simp)
  have hg : (hexVal g).isSome = true := hhex g (by simp)
  refine ⟨hexPair a b, hexPair c e, hexPair f g, ?_, ?_⟩
  · unfold hex_to_rgb
    rw [dropWhile_hash, dropWhile_cons_hex _ ha]
    have s0 : pySlice [a, b, c, e, f, g] 0 = [a, b] := rfl
    have s2 : pySlice [a, b, c, e, f, g] 2 = [c, e] := rfl
    have s4 : pySlice [a, b, c, e, f, g] 4 = [f, g] := rfl
    rw [s0, s2, s4, pyIntHex_pair a b ha hb, pyIntHex_pair c e hc he,
      pyIntHex_pair f g hf hg]
  · rw [toHex2_hexPair a b ha hb, toHex2_hexPair c e hc he,
      toHex2_hexPair f g hf hg]
    rfl

/-- C4 (witness): the palette token `"#D4AF37"` (gold) round-trips to
`"d4af37"`. -/
theorem c4_hex_roundtrip_witness :
    ∃ r g b,
      hex_to_rgb (List.replicate 1 '#' ++ ['D', '4', 'A', 'F', '3', '7']) = some (r, g, b) ∧
      toHex2 r ++ toHex2 g ++ toHex2 b = ['D', '4', 'A', 'F', '3', '7'].map lowerAscii :=
  c4_hex_roundtrip 1 ['D', '4', 'A', 'F', '3', '7'] (by decide) (by decide)

/-- C9: `hex_to_rgb` strips every leading `'#'`, reads only the first six
remaining characters, and succeeds for any token made of hashes, six hex
digits and arbitrary trailing characters, returning the triple parsed from
those six digits. -/
theorem c9_lenient_parse (k : ℕ) (a b c d e f : Char) (rest : List Char)
    (hhex : ∀ x ∈ [a, b, c, d, e, f], (hexVal x).isSome = true) :
    hex_to_rgb (List.replicate k '#' ++ a :: b :: c :: d :: e :: f :: rest) =
      some (hexPair a b, hexPair c d, hexPair e f) := by
  have ha : (hexVal a).isSome = true := hhex a (by simp)
  unfold hex_to_rgb
  rw [dropWhile_hash, dropWhile_cons_hex _ ha]
  have h := hex_to_rgb_cons6 a b c d e f rest ha (hhex b (by simp))
    (hhex c (by simp)) (hhex d (by simp)) (hhex e (by simp)) (hhex f (by simp))
  unfold hex_to_rgb at h
  rw [dropWhile_cons_hex _ ha] at h
  exact h

/-- C9 (witness): `"##6B3FA0xyz"` parses to the primary purple
`(107, 63, 160)` even with two hashes and trailing garbage. -/
theorem c9_lenient_parse_witness :
    hex_to_rgb (List.replicate 2 '#' ++ '6' :: 'B' :: '3' :: 'F' :: 'A' :: '0' :: ['x', 'y', 'z']) =
      some (hexPair '6' 'B', hexPair '3' 'F', hexPair 'A' '0') :=
  c9_lenient_parse 2 '6' 'B' '3' 'F' 'A' '0' ['x', 'y', 'z'] (by decide)

/-! ## Arithmetic facts about PIL's fixed-point blend -/

theorem pyTrunc_eq_floor (q : ℚ) (hq : 0 ≤ q) : pyTrunc q = ⌊q⌋ := by
  have hn : 0 ≤ q.num := Rat.num_nonneg.mpr hq
  unfold pyTrunc
  rw [Rat.floor_def, Int.tdiv_eq_ediv hn (by positivity)]

theorem muldiv255_eq (a b : ℕ) (ha : a ≤ 255) (hb : b ≤ 255) :
    muldiv255 a b = (2 * (a * b) + 255) / 510 := by
  have h : a * b ≤ 65025 := Nat.mul_le_mul ha hb
  unfold muldiv255
  omega

theorem muldiv255_zero_right (a : ℕ) : muldiv255 a 0 = 0 := by
  unfold muldiv255
  rw [Nat.mul_zero]

theorem muldiv255_255 (a : ℕ) (ha : a ≤ 255) : muldiv255 a 255 = a := by
  unfold muldiv255
  omega

theorem muldiv255_le_left {a c : ℕ} (b : ℕ) (h : a ≤ c) :
    muldiv255 a b ≤ muldiv255 c b := by
  have hm : a * b + 128 ≤ c * b + 128 :=
    Nat.add_le_add_right (Nat.mul_le_mul_right b h) 128
  exact Nat.div_le_div_right (Nat.add_le_add (Nat.div_le_div_right hm) hm)

theorem blendChan_mask_zero (a b : ℕ) (ha : a ≤ 255) : blendChan 0 a b = a := by
  unfold blendChan
  rw [Nat.sub_zero, muldiv255_255 a ha, muldiv255_zero_right, Nat.add_zero]

theorem blendChan_mask_255 (a b : ℕ) (hb : b ≤ 255) : blendChan 255 a b = b := by
  unfold blendChan
  rw [Nat.sub_self, muldiv255_zero_right, muldiv255_255 b hb, Nat.zero_add]

theorem blendChan_diag (m c : ℕ) (hm : m ≤ 255) (hc : c ≤ 255) :
    blendChan m c c = c := by
  unfold blendChan
  rw [muldiv255_eq c (255 - m) hc (by omega), muldiv255_eq c m hc hm]
  have hsum : c * (255 - m) + c * m = 255 * c := by
    rw [← Nat.mul_add, Nat.sub_add_cancel hm, Nat.mul_comm]
  omega

theorem blendChan_between (m a b : ℕ) (hm : m ≤ 255) (ha : a ≤ 255) (hb : b ≤ 255) :
    min a b ≤ blendChan m a b ∧ blendChan m a b ≤ max a b := by
  rcases Nat.le_total a b with hab | hab
  · rw [Nat.min_eq_left hab, Nat.max_eq_right hab]
    constructor
    · calc a = blendChan m a a := (blendChan_diag m a hm ha).symm
        _ ≤ blendChan m a b := Nat.add_le_add_left (muldiv255_le_left m hab) _
    · calc blendChan m a b ≤ blendChan m b b :=
          Nat.add_le_add_right (muldiv255_le_left (255 - m) hab) _
        _ = b := blendChan_diag m b hm hb
  · rw [Nat.min_eq_right hab, Nat.max_eq_left hab]
    constructor
    · calc b = blendChan m b b := (blendChan_diag m b hm hb).symm
        _ ≤ blendChan m a b := Nat.add_le_add_right (muldiv255_le_left (255 - m) hab) _
    · calc blendChan m a b ≤ blendChan m a a :=
          Nat.add_le_add_left (muldiv255_le_left m hab) _
        _ = a := blendChan_diag m a hm ha

/-! ## Facts about the vertical gradient's mask list -/

theorem maskRows_succ (g : ℕ → ℕ) (w h : ℕ) :
    maskRows g w (h + 1) = maskRows g w h ++ List.replicate w (g h) := by
  unfold maskRows
  rw [List.range_succ, List.foldl_append]
  rfl

theorem maskRows_length (g : ℕ → ℕ) (w : ℕ) : ∀ h, (maskRows g w h).length = h * w
  | 0 => by rw [Nat.zero_mul]; rfl
  | h + 1 => by
      rw [maskRows_succ, List.length_append, maskRows_length g w h,
        List.length_replicate, Nat.succ_mul]

theorem getD_append_left {α : Type} (d : α) :
    ∀ (l l2 : List α) (n : ℕ), n < l.length → (l ++ l2).getD n d = l.getD n d
  | [], _, n, h => absurd h (by simp)
  | a :: l, l2, 0, _ => rfl
  | a :: l, l2, n + 1, h => by
      rw [List.cons_append, List.getD_cons_succ, List.getD_cons_succ]
      exact getD_append_left d l l2 n (by
        simp only [List.length_cons] at h; omega)

theorem getD_append_right {α : Type} (d : α) :
    ∀ (l l2 : List α) (n : ℕ), (l ++ l2).getD (l.length + n) d = l2.getD n d
  | [], l2, n => by simp
  | a :: l, l2, n => by
      have hidx : (a :: l).length + n = (l.length + n) + 1 := by
        simp only [List.length_cons]; omega
      rw [List.cons_append, hidx, List.getD_cons_succ]
      exact getD_append_right d l l2 n

theorem getD_replicate {a : ℕ} : ∀ (w x : ℕ), x < w → (List.replicate w a).getD x 0 = a
  | 0, _, h => absurd h (by omega)
  | w + 1, 0, _ => rfl
  | w + 1, x + 1, h => by
      rw [List.replicate_succ, List.getD_cons_succ]
      exact getD_replicate w x (by omega)

theorem maskRows_getD (g : ℕ → ℕ) (w : ℕ) :
    ∀ (h y x : ℕ), y < h → x < w → (maskRows g w h).getD (y * w + x) 0 = g y
  | 0, _, _, hy, _ => absurd hy (by omega)
  | h + 1, y, x, hy, hx => by
      rw [maskRows_succ]
      rcases Nat.lt_succ_iff_lt_or_eq.mp hy with h1 | h1
      · have hb : y * w + x < (maskRows g w h).length := by
          rw [maskRows_length]
          calc y * w + x < y * w + w := by omega
            _ = (y + 1) * w := (Nat.succ_mul y w).symm
            _ ≤ h * w := Nat.mul_le_mul_right w h1
        rw [getD_append_left _ _ _ _ hb]
        exact maskRows_getD g w h y x h1 hx
      · subst h1
        have hidx : y * w + x = (maskRows g w y).length + x := by
          rw [maskRows_length]
        rw [hidx, getD_append_right]
        exact getD_replicate w x hx

/-- A successful masked paste (matching overlay and mask sizes) produces the
composite pixel function. -/
theorem pasteRun_ok (dst ov : Img) (m : GrayImg) (ox oy : ℕ)
    (hw : ov.width = m.width) (hh : ov.height = m.height) :
    pasteRun dst ov m ox oy = ⟨dst.width, dst.height, pastePx dst ov m ox oy⟩ := by
  unfold pasteRun pasteMask
  rw [if_pos ⟨hw, hh⟩]

/-- Closed form of every in-range pixel of `create_gradient_vertical`:
the PIL blend of the two colors under the row's quantized mask value. -/
theorem vertical_px (w h : ℕ) (c1 c2 : Color) (x y : ℕ)
    (hx : x < w) (hy : y < h) :
    (create_gradient_vertical w h c1 c2).px x y = blendPx (255 * y / h) c1 c2 := by
  unfold create_gradient_vertical
  rw [pasteRun_ok _ _ _ _ _ rfl rfl]
  show pastePx (Img.new w h c1) (Img.new w h c2) (putdataGray w h (vmaskData w h)) 0 0 x y = _
  unfold pastePx
  rw [if_pos]
  · show blendPx ((vmaskData w h).getD ((y - 0) * w + (x - 0)) 0) c1 c2 = _
    rw [Nat.sub_zero, Nat.sub_zero]
    unfold vmaskData
    rw [maskRows_getD _ _ _ _ _ hy hx]
  · exact ⟨Nat.zero_le x, by simpa using hx, Nat.zero_le y, by simpa using hy,
      hx, hy⟩

/-! ## Claim theorems: the vertical gradient (C2, C5) -/

/-- C2 (counterexample): at width 1, height 4, colors `(0,0,0)` and
`(3,3,3)`, the pixel in row 1 is `(1,1,1)`, while
`int(c1 + (c2 - c1) * (y / height)) = int(0.75) = 0`: the implementation's
two-step quantization (8-bit mask floor, then per-term rounded fixed-point
blend) does not equal truncation of the ideal interpolation.  All float
computations at this input are exact. -/
theorem c2_counterexample :
    (create_gradient_vertical 1 4 (0, 0, 0) (3, 3, 3)).px 0 1 = (1, 1, 1) ∧
    specVertChan 0 3 1 4 = 0 ∧
    ((1 : ℕ), (1 : ℕ), (1 : ℕ)) ≠
      ((specVertChan 0 3 1 4).toNat, (specVertChan 0 3 1 4).toNat,
        (specVertChan 0 3 1 4).toNat) := by
  have h0 : specVertChan 0 3 1 4 = 0 := by
    unfold specVertChan
    rw [pyTrunc_eq_floor _ (by positivity)]
    norm_num [Int.floor_eq_iff]
  refine ⟨by decide, h0, by rw [h0]; decide⟩

/-- C2 (amended): every pixel of row `y` of the vertical gradient has the
same color, and its per-channel value is PIL's rounded fixed-point blend
`MULDIV255(c1, 255 - m) + MULDIV255(c2, m)` of the two colors under the
quantized row mask `m = int(255 * (y / height))` — not the truncation of the
ideal interpolation `int(c1 + (c2 - c1) * (y / height))`. -/
theorem c2_vertical_row_blend (w h : ℕ) (c1 c2 : Color) (_hw : 0 < w) (_hh : 0 < h)
    (x y : ℕ) (hx : x < w) (hy : y < h) :
    (create_gradient_vertical w h c1 c2).px x y = blendPx (255 * y / h) c1 c2 ∧
    (∀ x2, x2 < w →
      (create_gradient_vertical w h c1 c2).px x2 y =
        (create_gradient_vertical w h c1 c2).px x y) := by
  refine ⟨vertical_px w h c1 c2 x y hx hy, ?_⟩
  intro x2 hx2
  rw [vertical_px w h c1 c2 x y hx hy, vertical_px w h c1 c2 x2 y hx2 hy]

/-- C2 (witness): the amended closed form evaluated at width 2, height 4,
black to `(3, 3, 3)`, row 1. -/
theorem c2_vertical_row_blend_witness :
    (create_gradient_vertical 2 4 (0, 0, 0) (3, 3, 3)).px 0 1 =
      blendPx (255 * 1 / 4) (0, 0, 0) (3, 3, 3) ∧
    (∀ x2, x2 < 2 →
      (create_gradient_vertical 2 4 (0, 0, 0) (3, 3, 3)).px x2 1 =
        (create_gradient_vertical 2 4 (0, 0, 0) (3, 3, 3)).px 0 1) :=
  c2_vertical_row_blend 2 4 (0, 0, 0) (3, 3, 3) (by decide) (by decide) 0 1
    (by decide) (by decide)

/-- C5 (counterexample): at height 1 the last row is row 0, so for
`color1 = (0,0,0)` and `color2 = (255,255,255)` the pixel of row `H-1`
equals `color1` and is not strictly closer to `color2` than row 0 is:
the claimed strict progress fails. -/
theorem c5_counterexample :
    (create_gradient_vertical 1 1 (0, 0, 0) (255, 255, 255)).px 0 0 = (0, 0, 0) ∧
    ¬ Nat.dist ((create_gradient_vertical 1 1 (0, 0, 0) (255, 255, 255)).px 0 (1 - 1)).1 255 <
        Nat.dist 0 255 := by
  refine ⟨by decide, by decide⟩

/-- C5 (amended): for every positive size and byte-valued colors, row 0 of
the vertical gradient equals `color1` exactly, every pixel's channels stay
inside the closed interval spanned by the two colors (no overshoot), and the
pixel of row `H-1` is at least as close to `color2`, channel by channel, as
`color1` is (strict progress can fail, e.g. at `H = 1`). -/
theorem c5_vertical_endpoints (w h : ℕ) (c1 c2 : Color) (_hw : 0 < w) (hh : 0 < h)
    (h1 : chanLe255 c1) (h2 : chanLe255 c2) (x : ℕ) (hx : x < w) :
    (create_gradient_vertical w h c1 c2).px x 0 = c1 ∧
    (∀ y, y < h → pxBetween ((create_gradient_vertical w h c1 c2).px x y) c1 c2) ∧
    pxCloser ((create_gradient_vertical w h c1 c2).px x (h - 1)) c1 c2 := by
  obtain ⟨hr1, hg1, hb1⟩ := h1
  obtain ⟨hr2, hg2, hb2⟩ := h2
  have hmask : ∀ y, y < h → 255 * y / h ≤ 255 := by
    intro y hy
    calc 255 * y / h ≤ 255 * h / h := Nat.div_le_div_right (by
        exact Nat.mul_le_mul_left 255 (Nat.le_of_lt hy))
      _ = 255 := Nat.mul_div_cancel 255 hh
  have hbet : ∀ y, y < h → pxBetween ((create_gradient_vertical w h c1 c2).px x y) c1 c2 := by
    intro y hy
    rw [vertical_px w h c1 c2 x y hx hy]
    exact ⟨blendChan_between _ _ _ (hmask y hy) hr1 hr2,
      blendChan_between _ _ _ (hmask y hy) hg1 hg2,
      blendChan_between _ _ _ (hmask y hy) hb1 hb2⟩
  refine ⟨?_, hbet, ?_⟩
  · rw [vertical_px w h c1 c2 x 0 hx hh]
    have hm0 : 255 * 0 / h = 0 := by simp
    rw [hm0]
    show (blendChan 0 c1.1 c2.1, blendChan 0 c1.2.1 c2.2.1,
      blendChan 0 c1.2.2 c2.2.2) = c1
    rw [blendChan_mask_zero _ _ hr1, blendChan_mask_zero _ _ hg1,
      blendChan_mask_zero _ _ hb1]
  · have hlast := hbet (h - 1) (by omega)
    obtain ⟨⟨hrl, hru⟩, ⟨hgl, hgu⟩, ⟨hbl, hbu⟩⟩ := hlast
    refine ⟨?_, ?_, ?_⟩ <;> · simp only [Nat.dist]; omega

/-- C5 (witness): the amended properties at width 1, height 2, black to
white. -/
theorem c5_vertical_endpoints_witness :
    (create_gradient_vertical 1 2 (0, 0, 0) (255, 255, 255)).px 0 0 = (0, 0, 0) ∧
    (∀ y, y < 2 →
      pxBetween ((create_gradient_vertical 1 2 (0, 0, 0) (255, 255, 255)).px 0 y)
        (0, 0, 0) (255, 255, 255)) ∧
    pxCloser ((create_gradient_vertical 1 2 (0, 0, 0) (255, 255, 255)).px 0 (2 - 1))
      (0, 0, 0) (255, 255, 255) :=
  c5_vertical_endpoints 1 2 (0, 0, 0) (255, 255, 255) (by decide) (by decide)
    ⟨by decide, by decide, by decide⟩ ⟨by decide, by decide, by decide⟩ 0 (by decide)

/-! ## The diagonal gradient's write loops -/

theorem rowLoop_succ (w y : ℕ) (f p : ℕ → ℕ → Color) :
    rowLoop (w + 1) y f p = writePx (rowLoop w y f p) w y (f w y) := by
  unfold rowLoop
  rw [List.range_succ, List.foldl_append]
  rfl

theorem rowLoop_at (y : ℕ) (f p : ℕ → ℕ → Color) :
    ∀ (w x : ℕ), x < w → rowLoop w y f p x y = f x y
  | 0, _, hx => absurd hx (by omega)
  | w + 1, x, hx => by
      rw [rowLoop_succ]
      unfold writePx
      rcases Nat.lt_succ_iff_lt_or_eq.mp hx with h1 | h1
      · rw [if_neg (by omega)]
        exact rowLoop_at y f p w x h1
      · subst h1
        rw [if_pos ⟨rfl, rfl⟩]

theorem rowLoop_off (y : ℕ) (f p : ℕ → ℕ → Color) (a b : ℕ) (hb : b ≠ y) :
    ∀ w, rowLoop w y f p a b = p a b
  | 0 => rfl
  | w + 1 => by
      rw [rowLoop_succ]
      unfold writePx
      rw [if_neg (by exact fun hc => hb hc.2)]
      exact rowLoop_off y f p a b hb w

theorem gridLoop_succ (w h : ℕ) (f p : ℕ → ℕ → Color) :
    gridLoop w (h + 1) f p = rowLoop w h f (gridLoop w h f p) := by
  unfold gridLoop
  rw [List.range_succ, List.foldl_append]
  rfl

theorem gridLoop_at (w : ℕ) (f p : ℕ → ℕ → Color) :
    ∀ (h x y : ℕ), x < w → y < h → gridLoop w h f p x y = f x y
  | 0, _, _, _, hy => absurd hy (by omega)
  | h + 1, x, y, hx, hy => by
      rw [gridLoop_succ]
      rcases Nat.lt_succ_iff_lt_or_eq.mp hy with h1 | h1
      · rw [rowLoop_off h f _ x y (by omega)]
        exact gridLoop_at w f p h x y hx h1
      · subst h1
        exact rowLoop_at y f _ w x hx

theorem pyTrunc_natCast (n : ℕ) : pyTrunc ((n : ℕ) : ℚ) = n := by
  rw [pyTrunc_eq_floor _ (by positivity)]
  exact Int.floor_natCast n

theorem specDiagBlendFactor_nonneg (w h x y : ℕ) : 0 ≤ specDiagBlendFactor w h x y := by
  unfold specDiagBlendFactor
  positivity

theorem specDiagBlendFactor_lt_one (w h x y : ℕ) (hx : x < w) (hy : y < h) :
    specDiagBlendFactor w h x y < 1 := by
  have hw0 : 0 < w := Nat.lt_of_le_of_lt (Nat.zero_le x) hx
  have hh0 : 0 < h := Nat.lt_of_le_of_lt (Nat.zero_le y) hy
  have h1 : (x : ℚ) / (w : ℚ) < 1 :=
    (div_lt_one (by exact_mod_cast hw0)).mpr (by exact_mod_cast hx)
  have h2 : (y : ℚ) / (h : ℚ) < 1 :=
    (div_lt_one (by exact_mod_cast hh0)).mpr (by exact_mod_cast hy)
  unfold specDiagBlendFactor
  linarith

theorem fround_zero (b : ℕ) : fround 0 b = (0, 0) := rfl

set_option maxRecDepth 16384 in
/-- Rounding an exactly representable byte (denominator 1) and truncating
gives the byte back. -/
theorem fround_byte : ∀ a, a < 256 → dyTrunc (fround a 1) = a := by decide

theorem floatBlend_origin (w h : ℕ) : floatBlend w h 0 0 = (0, 1) := by
  unfold floatBlend
  rw [fround_zero, fround_zero]
  have hadd : dyAdd (0, 0) (0, 0) = (0, 0) := by
    unfold dyAdd
    norm_num [fround_zero]
  rw [hadd]
  rfl

theorem floatChan_zero_blend (a b : ℕ) (ha : a ≤ 255) : floatChan a b (0, 1) = a := by
  have h256 : a < 256 := by omega
  unfold floatChan
  split
  · have hp : fround ((b - a) * ((0 : ℕ), (1 : ℕ)).1) (2 ^ ((0 : ℕ), (1 : ℕ)).2) = (0, 0) := by
      have hz : (b - a) * ((0 : ℕ), (1 : ℕ)).1 = 0 := by norm_num
      rw [hz, fround_zero]
    rw [hp]
    have hadd : dyAdd (a, 0) (0, 0) = fround a 1 := by
      unfold dyAdd
      norm_num
    rw [hadd]
    exact fround_byte a h256
  · have hp : fround ((a - b) * ((0 : ℕ), (1 : ℕ)).1) (2 ^ ((0 : ℕ), (1 : ℕ)).2) = (0, 0) := by
      have hz : (a - b) * ((0 : ℕ), (1 : ℕ)).1 = 0 := by norm_num
      rw [hz, fround_zero]
    rw [hp]
    have hsub : dySubInt a (0, 0) = fround a 1 := by
      unfold dySubInt
      norm_num
    rw [hsub]
    exact fround_byte a h256

theorem floatDiagPixel_origin (c1 c2 : Color) (w h : ℕ) (h1 : chanLe255 c1) :
    floatDiagPixel c1 c2 w h 0 0 = c1 := by
  obtain ⟨hr, hg, hb⟩ := h1
  unfold floatDiagPixel
  rw [floatBlend_origin, floatChan_zero_blend _ _ hr, floatChan_zero_blend _ _ hg,
    floatChan_zero_blend _ _ hb]

/-! ## Claim theorems: the diagonal gradient (C3) -/

/-- C3 (counterexample): at width 1, height 10, colors `(0,0,0)` to
`(180,180,180)`, pixel `(0, 7)`: the script's binary64 evaluation writes 62
— the double nearest `7/10` lies below it, so `blend` is just under `0.35`
and `180 * blend` lands at the double just under 63 and truncates to 62 —
while the claim's exact truncated interpolation is `int(180 * 7/20) = 63`.
The per-channel formula of the claim is therefore not what the code
computes. -/
theorem c3_counterexample :
    (create_diagonal_gradient 1 10 (0, 0, 0) (180, 180, 180)).px 0 7 = (62, 62, 62) ∧
    specDiagChan 0 180 (specDiagBlendFactor 1 10 0 7) = 63 ∧
    ((create_diagonal_gradient 1 10 (0, 0, 0) (180, 180, 180)).px 0 7).1 ≠
      (specDiagChan 0 180 (specDiagBlendFactor 1 10 0 7)).toNat := by
  have hs : specDiagChan 0 180 (specDiagBlendFactor 1 10 0 7) = 63 := by
    have ht : specDiagBlendFactor 1 10 0 7 = 7 / 20 := by
      unfold specDiagBlendFactor
      norm_num
    unfold specDiagChan
    rw [ht]
    have hv : ((0 : ℕ) : ℚ) + (((180 : ℕ) : ℚ) - ((0 : ℕ) : ℚ)) * (7 / 20) =
        ((63 : ℕ) : ℚ) := by
      norm_num
    rw [hv, pyTrunc_natCast]
    norm_num
  have hpx : (create_diagonal_gradient 1 10 (0, 0, 0) (180, 180, 180)).px 0 7 = (62, 62, 62) := by
    decide
  refine ⟨hpx, hs, ?_⟩
  rw [hpx, hs]
  decide

/-- C3 (amended): every in-range pixel of the diagonal gradient carries, per
channel, the binary64 evaluation of `int(c1 + (c2 - c1) * blend)` with the
binary64 blend `((x / width) + (y / height)) / 2` — which can differ by one
from the exact truncated interpolation; the pixel at `(0, 0)` still equals
`color1` exactly for byte-valued colors, and the exact blend factor `t`
stays in `[0, 1)` for every in-range pixel. -/
theorem c3_diagonal_float (w h : ℕ) (c1 c2 : Color) (hw : 0 < w) (hh : 0 < h)
    (h1 : chanLe255 c1) (x y : ℕ) (hx : x < w) (hy : y < h) :
    (create_diagonal_gradient w h c1 c2).px x y = floatDiagPixel c1 c2 w h x y ∧
    (create_diagonal_gradient w h c1 c2).px 0 0 = c1 ∧
    0 ≤ specDiagBlendFactor w h x y ∧ specDiagBlendFactor w h x y < 1 := by
  refine ⟨gridLoop_at w _ _ h x y hx hy, ?_,
    specDiagBlendFactor_nonneg w h x y, specDiagBlendFactor_lt_one w h x y hx hy⟩
  rw [show (create_diagonal_gradient w h c1 c2).px 0 0 =
      gridLoop w h (floatDiagPixel c1 c2 w h) (fun _ _ => c1) 0 0 from rfl,
    gridLoop_at w _ _ h 0 0 hw hh, floatDiagPixel_origin c1 c2 w h h1]

/-- C3 (witness): the amended closed form at the counterexample's input,
width 1, height 10, black to `(180, 180, 180)`, pixel `(0, 7)`. -/
theorem c3_diagonal_float_witness :
    (create_diagonal_gradient 1 10 (0, 0, 0) (180, 180, 180)).px 0 7 =
      floatDiagPixel (0, 0, 0) (180, 180, 180) 1 10 0 7 ∧
    (create_diagonal_gradient 1 10 (0, 0, 0) (180, 180, 180)).px 0 0 = (0, 0, 0) ∧
    0 ≤ specDiagBlendFactor 1 10 0 7 ∧ specDiagBlendFactor 1 10 0 7 < 1 :=
  c3_diagonal_float 1 10 (0, 0, 0) (180, 180, 180) (by decide) (by decide)
    ⟨by decide, by decide, by decide⟩ 0 7 (by decide) (by decide)

/-! ## Claim theorems: the mask compositor (C6, C7) -/

/-- C6: for byte-valued buffers with an overlay and mask of matching size and
an in-bounds paste origin, pasting with an all-255 mask reproduces the
overlay exactly on the destination region, pasting with an all-zero mask
leaves every destination pixel unchanged, and in general every pixel whose
mask value is zero retains its prior value. -/
theorem c6_paste_mask (dst ov : Img) (m : GrayImg) (ox oy : ℕ)
    (hw : ov.width = m.width) (hh : ov.height = m.height)
    (hbx : ox + ov.width ≤ dst.width) (hby : oy + ov.height ≤ dst.height)
    (hdst : ∀ x y, chanLe255 (dst.px x y)) (hov : ∀ x y, chanLe255 (ov.px x y)) :
    ((∀ u v, m.px u v = 255) → ∀ x y, x < ov.width → y < ov.height →
      (pasteRun dst ov m ox oy).px (ox + x) (oy + y) = ov.px x y) ∧
    ((∀ u v, m.px u v = 0) → ∀ x y,
      (pasteRun dst ov m ox oy).px x y = dst.px x y) ∧
    (∀ x y, m.px (x - ox) (y - oy) = 0 →
      (pasteRun dst ov m ox oy).px x y = dst.px x y) := by
  rw [pasteRun_ok dst ov m ox oy hw hh]
  refine ⟨?_, ?_, ?_⟩
  · intro hm x y hx hy
    show pastePx dst ov m ox oy (ox + x) (oy + y) = ov.px x y
    unfold pastePx
    rw [if_pos ⟨Nat.le_add_right ox x, by omega, Nat.le_add_right oy y, by omega,
      by omega, by omega⟩]
    rw [Nat.add_sub_cancel_left, Nat.add_sub_cancel_left, hm x y]
    obtain ⟨h1, h2, h3⟩ := hov x y
    show blendPx 255 (dst.px (ox + x) (oy + y)) (ov.px x y) = ov.px x y
    unfold blendPx
    rw [blendChan_mask_255 _ _ h1, blendChan_mask_255 _ _ h2,
      blendChan_mask_255 _ _ h3]
  · intro hm x y
    show pastePx dst ov m ox oy x y = dst.px x y
    unfold pastePx
    split
    · rw [hm (x - ox) (y - oy)]
      obtain ⟨h1, h2, h3⟩ := hdst x y
      show blendPx 0 (dst.px x y) (ov.px (x - ox) (y - oy)) = dst.px x y
      unfold blendPx
      rw [blendChan_mask_zero _ _ h1, blendChan_mask_zero _ _ h2,
        blendChan_mask_zero _ _ h3]
    · rfl
  · intro x y hmz
    show pastePx dst ov m ox oy x y = dst.px x y
    unfold pastePx
    split
    · rw [hmz]
      obtain ⟨h1, h2, h3⟩ := hdst x y
      show blendPx 0 (dst.px x y) (ov.px (x - ox) (y - oy)) = dst.px x y
      unfold blendPx
      rw [blendChan_mask_zero _ _ h1, blendChan_mask_zero _ _ h2,
        blendChan_mask_zero _ _ h3]
    · rfl

/-- C6 (witness): the three paste laws on a 2x2 destination, a 1x1 overlay
and a 1x1 all-opaque mask pasted at the origin. -/
theorem c6_paste_mask_witness :
    ((∀ u v, (GrayImg.mk 1 1 (fun _ _ => 255)).px u v = 255) → ∀ x y, x < 1 → y < 1 →
      (pasteRun (Img.new 2 2 (9, 8, 7)) (Img.new 1 1 (250, 5, 6))
        (GrayImg.mk 1 1 (fun _ _ => 255)) 0 0).px (0 + x) (0 + y) =
        (Img.new 1 1 (250, 5, 6)).px x y) ∧
    ((∀ u v, (GrayImg.mk 1 1 (fun _ _ => 255)).px u v = 0) → ∀ x y,
      (pasteRun (Img.new 2 2 (9, 8, 7)) (Img.new 1 1 (250, 5, 6))
        (GrayImg.mk 1 1 (fun _ _ => 255)) 0 0).px x y =
        (Img.new 2 2 (9, 8, 7)).px x y) ∧
    (∀ x y, (GrayImg.mk 1 1 (fun _ _ => 255)).px (x - 0) (y - 0) = 0 →
      (pasteRun (Img.new 2 2 (9, 8, 7)) (Img.new 1 1 (250, 5, 6))
        (GrayImg.mk 1 1 (fun _ _ => 255)) 0 0).px x y =
        (Img.new 2 2 (9, 8, 7)).px x y) :=
  c6_paste_mask (Img.new 2 2 (9, 8, 7)) (Img.new 1 1 (250, 5, 6))
    (GrayImg.mk 1 1 (fun _ _ => 255)) 0 0 rfl rfl (by decide) (by decide)
    (fun _ _ => show chanLe255 (9, 8, 7) from ⟨by decide, by decide, by decide⟩)
    (fun _ _ => show chanLe255 (250, 5, 6) from ⟨by decide, by decide, by decide⟩)

/-- C7: when the overlay's and the mask's dimensions differ, the masked
paste fails with `DimensionMismatch`, and running the paste leaves the
destination canvas exactly as it was (the size check precedes any pixel
write). -/
theorem c7_dimension_mismatch (dst ov : Img) (m : GrayImg) (ox oy : ℕ)
    (hne : ¬(ov.width = m.width ∧ ov.height = m.height)) :
    pasteMask dst ov m ox oy = .error .dimensionMismatch ∧
    pasteRun dst ov m ox oy = dst := by
  constructor
  · unfold pasteMask
    rw [if_neg hne]
  · unfold pasteRun pasteMask
    rw [if_neg hne]

/-- C7 (witness): a 1x1 overlay against a 2x1 mask errors out and leaves the
destination untouched. -/
theorem c7_dimension_mismatch_witness :
    pasteMask (Img.new 1 1 (0, 0, 0)) (Img.new 1 1 (1, 1, 1))
      (GrayImg.mk 2 1 (fun _ _ => 0)) 0 0 = .error .dimensionMismatch ∧
    pasteRun (Img.new 1 1 (0, 0, 0)) (Img.new 1 1 (1, 1, 1))
      (GrayImg.mk 2 1 (fun _ _ => 0)) 0 0 = Img.new 1 1 (0, 0, 0) :=
  c7_dimension_mismatch (Img.new 1 1 (0, 0, 0)) (Img.new 1 1 (1, 1, 1))
    (GrayImg.mk 2 1 (fun _ _ => 0)) 0 0 (by decide)

/-! ## Claim theorems: the hero mockup (C8) -/

theorem pasteA_at (dw dh ox oy w h : ℕ) (ovA maskA f : AlphaBuf) (x y : ℕ)
    (hin : ox ≤ x ∧ x < ox + w ∧ oy ≤ y ∧ y < oy + h ∧ x < dw ∧ y < dh) :
    pasteA dw dh ox oy w h ovA maskA f x y =
      blendChan (maskA (x - ox) (y - oy)) (f x y) (ovA (x - ox) (y - oy)) := by
  unfold pasteA
  rw [if_pos hin]

theorem mockupAlpha_center : mockupAlpha 220 420 = 255 := by decide

/-- C8 (counterexample): the hero mockup's source canvas is 380x780, not the
claimed 400x800, so the output is 440x840 rather than the 400x800 canvas
plus the declared 30-pixel padding on each side. -/
theorem c8_counterexample :
    (phone_w, phone_h) = (380, 780) ∧ (phone_w, phone_h) ≠ (400, 800) ∧
    (mockupImgWidth, mockupImgHeight) = (440, 840) ∧
    (mockupImgWidth, mockupImgHeight) ≠
      (400 + 2 * mockup_margin, 800 + 2 * mockup_margin) := by
  exact ⟨rfl, by decide, rfl, by decide⟩

/-- C8 (amended): the hero mockup's source canvas is 380x780; the generated
image measures exactly that canvas plus the declared 30-pixel margin/glow
padding on each side (440x840), and the pixel at the canvas center has
alpha 255 — in particular non-zero — whatever the blurred glow buffer
holds. -/
theorem c8_mockup_size_alpha (g : AlphaBuf) :
    (phone_w, phone_h) = (380, 780) ∧
    mockupImgWidth = phone_w + 2 * mockup_margin ∧
    mockupImgHeight = phone_h + 2 * mockup_margin ∧
    mockupFinalAlpha g (mockupImgWidth / 2) (mockupImgHeight / 2) = 255 ∧
    0 < mockupFinalAlpha g (mockupImgWidth / 2) (mockupImgHeight / 2) := by
  have hm : mockupFinalAlpha g 220 420 = 255 := by
    unfold mockupFinalAlpha
    rw [pasteA_at 440 840 0 0 440 840 mockupAlpha mockupAlpha _ 220 420 (by omega)]
    simp only [Nat.sub_zero]
    rw [mockupAlpha_center]
    exact blendChan_mask_255 _ _ (by omega)
  have hw : mockupImgWidth / 2 = 220 := by rfl
  have hh : mockupImgHeight / 2 = 420 := by rfl
  rw [hw, hh, hm]
  exact ⟨rfl, rfl, rfl, rfl, by omega⟩

/-! ## Claim theorems: icon generation (C10) -/

/-- C10: `generate_icon` always starts from a fully transparent 128x128
canvas, always hands the drawing callback the size 128, writes to the path
`assets/generated/icon_{name}.png`, and distinct icon names give distinct
output paths. -/
theorem c10_generate_icon (name other : List Char) (draw_func : RGBAImg → ℕ → RGBAImg)
    (hne : name ≠ other) :
    (newRGBA 128 128 (0, 0, 0, 0)).width = 128 ∧
    (newRGBA 128 128 (0, 0, 0, 0)).height = 128 ∧
    (∀ x y, alphaOf ((newRGBA 128 128 (0, 0, 0, 0)).px x y) = 0) ∧
    (generate_icon name draw_func).2 = draw_func (newRGBA 128 128 (0, 0, 0, 0)) 128 ∧
    (generate_icon name draw_func).1 = iconPathHead ++ name ++ iconPathTail ∧
    (generate_icon name draw_func).1 ≠ (generate_icon other draw_func).1 := by
  refine ⟨rfl, rfl, fun _ _ => rfl, rfl, rfl, ?_⟩
  intro heq
  have heq2 : (iconPathHead ++ name) ++ iconPathTail =
      (iconPathHead ++ other) ++ iconPathTail := heq
  exact hne (List.append_cancel_left (List.append_cancel_right heq2))

/-- C10 (witness): the icon names `"price"` and `"nopay"` from the script's
icon list produce the 128x128 transparent canvas behavior and distinct output
paths. -/
theorem c10_generate_icon_witness :
    (newRGBA 128 128 (0, 0, 0, 0)).width = 128 ∧
    (newRGBA 128 128 (0, 0, 0, 0)).height = 128 ∧
    (∀ x y, alphaOf ((newRGBA 128 128 (0, 0, 0, 0)).px x y) = 0) ∧
    (generate_icon ['p', 'r', 'i', 'c', 'e'] (fun i _ => i)).2 =
      (fun (i : RGBAImg) (_ : ℕ) => i) (newRGBA 128 128 (0, 0, 0, 0)) 128 ∧
    (generate_icon ['p', 'r', 'i', 'c', 'e'] (fun i _ => i)).1 =
      iconPathHead ++ ['p', 'r', 'i', 'c', 'e'] ++ iconPathTail ∧
    (generate_icon ['p', 'r', 'i', 'c', 'e'] (fun i _ => i)).1 ≠
      (generate_icon ['n', 'o', 'p', 'a', 'y'] (fun i _ => i)).1 :=
  c10_generate_icon ['p', 'r', 'i', 'c', 'e'] ['n', 'o', 'p', 'a', 'y']
    (fun i _ => i) (by decide)

end VLVT
